import Mathlib

/-!
Verification of the worker-supervision core of the amp-orchestrator daemon.

The Go source is embedded shallowly: pure fragments become Lean functions,
stateful fragments become explicit state passing, and the operating-system
environment (signal delivery, process liveness, file contents) is passed in
as explicit arguments. Byte strings are modelled as `String` or `List Char`
as noted on each definition.
-/

set_option maxHeartbeats 1000000
set_option synthInstance.maxHeartbeats 400000
set_option synthInstance.maxSize 512

/-- Worker status, from `internal/worker/types.go` (`WorkerStatus` constants
`running`, `stopped`, `interrupted`, `aborted`, `failed`, `completed`). -/
inductive WorkerStatus where
  | running
  | stopped
  | interrupted
  | aborted
  | failed
  | completed
deriving DecidableEq, Repr, Fintype

/-- `AllowedTransitions` from `internal/worker/types.go`: the valid state
transitions for workers. Go stores this as a map whose keys are exactly the
six statuses, so a total function is a faithful model. -/
def AllowedTransitions : WorkerStatus → List WorkerStatus
  | .running => [.stopped, .interrupted, .aborted, .completed, .failed]
  | .stopped => [.running, .aborted]
  | .interrupted => [.running, .aborted]
  | .aborted => [.running]
  | .failed => [.running]
  | .completed => [.running]

/-- `CanTransition` from `internal/worker/types.go`: a transition is allowed
when the target appears in the list for the source status. -/
def CanTransition (src dst : WorkerStatus) : Bool :=
  (AllowedTransitions src).contains dst

/-- Errors returned by the manager operations in `internal/worker/` (the Go
code builds them with `fmt.Errorf`; the HTTP layer in `internal/api/tasks.go`
classifies them by substring, mapping `notRunning` and the `cannot...`
messages to HTTP 409 Conflict). -/
inductive MgrErr where
  | notFound
  | notRunning
  | cannotInterrupt (s : WorkerStatus)
  | cannotAbort (s : WorkerStatus)
  | cannotRetry (s : WorkerStatus)
  | findProcessFailed
  | killFailed
  | spawnFailed
  | runFailed
deriving DecidableEq, Repr

/-- Which manager errors the HTTP layer maps to 409 Conflict
(`internal/api/tasks.go`: substrings `not running`, `cannot interrupt`,
`cannot abort`, `cannot retry`). -/
def MgrErr.isConflict : MgrErr → Bool
  | .notRunning => true
  | .cannotInterrupt _ => true
  | .cannotAbort _ => true
  | .cannotRetry _ => true
  | _ => false

/-- Result of one manager operation on one worker: the returned error (if
any) and the status that ends up persisted for that worker. -/
structure StatusResult where
  err : Option MgrErr
  status : WorkerStatus
deriving DecidableEq, Repr

/-- `Manager.StopWorker` (worker manager file), restricted to the status of
the targeted worker. The environment booleans say whether each system call
succeeds: `pgKillOk` is `syscall.Kill(-PID, SIGTERM)`, `findOk` is
`os.FindProcess`, `termOk` is `process.Signal(SIGTERM)`, `killOk` is
`process.Kill()`. A worker that is not `running` is rejected; when the
process-group kill fails the code falls back to the individual process and
returns an error (leaving the status untouched) when every signal fails. -/
def StopWorker (s : WorkerStatus) (pgKillOk findOk termOk killOk : Bool) : StatusResult :=
  if s ≠ .running then ⟨some .notRunning, s⟩
  else if pgKillOk then ⟨none, .stopped⟩
  else if ¬ findOk then ⟨some .findProcessFailed, s⟩
  else if termOk then ⟨none, .stopped⟩
  else if killOk then ⟨none, .stopped⟩
  else ⟨some .killFailed, s⟩

/-- `Manager.InterruptWorker`: checks `CanTransition(status, interrupted)`,
sends SIGINT to the process group, tolerates every signal failure, and
persists `interrupted`. The signal outcome does not influence the result, so
it takes no environment argument. -/
def InterruptWorker (s : WorkerStatus) : StatusResult :=
  if ¬ CanTransition s .interrupted then ⟨some (.cannotInterrupt s), s⟩
  else ⟨none, .interrupted⟩

/-- `Manager.AbortWorker`: checks `CanTransition(status, aborted)`, sends
SIGKILL to the process group, tolerates every signal failure, and persists
`aborted`. -/
def AbortWorker (s : WorkerStatus) : StatusResult :=
  if ¬ CanTransition s .aborted then ⟨some (.cannotAbort s), s⟩
  else ⟨none, .aborted⟩

/-- `Manager.RetryWorker`: checks `CanTransition(status, running)`, spawns a
fresh process (`spawnOk` says whether `cmd.Start()` succeeds), and persists
`running` with the new PID on success. -/
def RetryWorker (s : WorkerStatus) (spawnOk : Bool) : StatusResult :=
  if ¬ CanTransition s .running then ⟨some (.cannotRetry s), s⟩
  else if ¬ spawnOk then ⟨some .spawnFailed, s⟩
  else ⟨none, .running⟩

/-- `Manager.ContinueWorker`: a worker recorded as `running` whose process is
gone (`alive = false`, the signal-0 probe of `checkProcessStatus`) is first
demoted to `stopped` and persisted; then any worker that is not `running` is
rejected. Otherwise a short-lived child is run synchronously (`runOk` is the
outcome of `cmd.Run()`); the status is not changed on that path. -/
def ContinueWorker (s : WorkerStatus) (alive runOk : Bool) : StatusResult :=
  let s := if s = .running ∧ ¬ alive then .stopped else s
  if s ≠ .running then ⟨some .notRunning, s⟩
  else if ¬ runOk then ⟨some .runFailed, s⟩
  else ⟨none, s⟩

/-- The liveness-reconciliation pass of `Manager.ListWorkers`: each worker
recorded as `running` whose process no longer answers signal 0 is demoted to
`stopped`; every other worker is untouched. -/
def listReconcile (s : WorkerStatus) (alive : Bool) : WorkerStatus :=
  if s = .running ∧ ¬ alive then .stopped else s

/-- `Manager.MonitorWorkerExit` (`internal/worker/watcher.go` lines 48 to
76): after `cmd.Wait()` returns, the worker is set to `stopped`
unconditionally. The previous status is not consulted. -/
def MonitorWorkerExit (_s : WorkerStatus) : WorkerStatus :=
  .stopped

/-- C1. The claim as stated is false: the exit monitor also performs status
changes, and it writes `stopped` whatever the previous status was. At the
concrete input `interrupted` (a worker interrupted while its process was
exiting) the monitor effects the transition `interrupted → stopped`, which
is not in `AllowedTransitions`, and nothing is rejected. -/
theorem C1_counterexample :
    MonitorWorkerExit .interrupted = .stopped ∧
    CanTransition .interrupted .stopped = false := by
  decide

/-- C1 (amended): every status change performed by a supervisor operation
(stop, the continue and list demotions of a dead worker, interrupt, abort,
retry) is in `AllowedTransitions`, and a request whose transition is outside
the table is rejected with a conflict-classified error that leaves the
status unchanged. The exit monitor, however, writes `stopped`
unconditionally, which is inside the table exactly when the previous status
was `running`. -/
theorem C1_transitions_respect_table :
    ∀ (s : WorkerStatus) (pgKillOk findOk termOk killOk alive runOk spawnOk : Bool),
      ((StopWorker s pgKillOk findOk termOk killOk).status ≠ s →
        CanTransition s (StopWorker s pgKillOk findOk termOk killOk).status = true) ∧
      (CanTransition s .stopped = false →
        (StopWorker s pgKillOk findOk termOk killOk).err = some .notRunning ∧
        MgrErr.isConflict .notRunning = true ∧
        (StopWorker s pgKillOk findOk termOk killOk).status = s) ∧
      ((InterruptWorker s).status ≠ s → CanTransition s (InterruptWorker s).status = true) ∧
      (CanTransition s .interrupted = false →
        (InterruptWorker s).err = some (.cannotInterrupt s) ∧
        MgrErr.isConflict (.cannotInterrupt s) = true ∧
        (InterruptWorker s).status = s) ∧
      ((AbortWorker s).status ≠ s → CanTransition s (AbortWorker s).status = true) ∧
      (CanTransition s .aborted = false →
        (AbortWorker s).err = some (.cannotAbort s) ∧
        MgrErr.isConflict (.cannotAbort s) = true ∧
        (AbortWorker s).status = s) ∧
      ((RetryWorker s spawnOk).status ≠ s → CanTransition s (RetryWorker s spawnOk).status = true) ∧
      (CanTransition s .running = false →
        (RetryWorker s spawnOk).err = some (.cannotRetry s) ∧
        MgrErr.isConflict (.cannotRetry s) = true ∧
        (RetryWorker s spawnOk).status = s) ∧
      ((ContinueWorker s alive runOk).status ≠ s →
        CanTransition s (ContinueWorker s alive runOk).status = true) ∧
      (listReconcile s alive ≠ s → CanTransition s (listReconcile s alive) = true) ∧
      (MonitorWorkerExit s = .stopped) ∧
      (CanTransition s (MonitorWorkerExit s) = true ↔ s = .running) := by
  decide

/-- C1 witness: the amended theorem applied at the concrete status `stopped`,
whose stop request is outside the table and is rejected unchanged. -/
theorem C1_transitions_witness :
    (StopWorker .stopped true true true true).err = some .notRunning ∧
    (StopWorker .stopped true true true true).status = .stopped := by
  have h := (C1_transitions_respect_table .stopped true true true true true true true).2.1 (by decide)
  exact ⟨h.1, h.2.2⟩

/-- C5. The claim as stated is false: when the process-group SIGTERM, the
individual SIGTERM and the SIGKILL all fail (the process is already gone),
`StopWorker` returns the kill error and does not persist `stopped`; the
worker stays `running`. Signal tolerance holds for interrupt and abort, but
stop propagates the final kill failure. -/
theorem C5_counterexample :
    (StopWorker .running false true false false).err = some .killFailed ∧
    (StopWorker .running false true false false).status = .running := by
  decide

/-- C5 (amended): `stop` on a `running` worker succeeds and persists
`stopped` exactly when some signal send succeeds (the process-group SIGTERM,
or the fallback SIGTERM or SIGKILL on the found individual process); when
every signal send fails it returns an error and leaves the status
`running`. `interrupt` and `abort`, by contrast, tolerate all signal-send
failures and always persist their target status from `running`. -/
theorem C5_stop_requires_one_signal :
    ∀ (pgKillOk findOk termOk killOk : Bool),
      ((StopWorker .running pgKillOk findOk termOk killOk).err = none ↔
        (pgKillOk = true ∨ (findOk = true ∧ (termOk = true ∨ killOk = true)))) ∧
      ((StopWorker .running pgKillOk findOk termOk killOk).err = none →
        (StopWorker .running pgKillOk findOk termOk killOk).status = .stopped) ∧
      ((StopWorker .running pgKillOk findOk termOk killOk).err ≠ none →
        (StopWorker .running pgKillOk findOk termOk killOk).status = .running) ∧
      (InterruptWorker .running = ⟨none, .interrupted⟩) ∧
      (AbortWorker .running = ⟨none, .aborted⟩) := by
  decide

/-- C5 witness: the amended theorem at the all-signals-fail input. -/
theorem C5_stop_witness :
    (StopWorker .running false true false false).status = .running :=
  (C5_stop_requires_one_signal false true false false).2.2.1 (by decide)

/-- WebSocket message type, from the hub message definitions
(`MessageType` string constants of package `hub`). -/
inductive MessageType where
  | taskUpdate
  | log
  | threadMessage
  | pong
  | heartbeat
  | ping
  | subscribe
  | unsubscribe
deriving DecidableEq, Repr

/-- The hub client, from `internal/hub/client.go` and its construction in
`Hub.ServeWS` (`internal/hub/hub.go`). The two subscription maps are
modelled by their key lists (the handlers only ever store the value `true`),
the buffered `send` channel by its queue plus its capacity (256 at
construction), and the runtime fields (socket, id, heartbeat clocks, mutex)
are omitted. -/
structure Client where
  connected : Bool
  subscribedTypes : List MessageType
  subscribedTasks : List String
  send : List String
  sendCap : Nat
deriving DecidableEq, Repr

/-- `Client.ShouldReceiveMessage` from `internal/hub/client.go` lines 249 to
270: default-on only when BOTH subscription sets are empty, then membership
of the type, then membership of a non-empty task id. -/
def ShouldReceiveMessage (c : Client) (msgType : MessageType) (taskID : String) : Bool :=
  if c.subscribedTypes.length = 0 ∧ c.subscribedTasks.length = 0 then true
  else if c.subscribedTypes.contains msgType then true
  else if taskID ≠ "" ∧ c.subscribedTasks.contains taskID then true
  else false

/-- The defaulting condition the claim states for `ShouldReceive`: at least
ONE of the two subscription sets is empty (written from the words of the
spec, for comparison with the source). -/
def claimShouldReceive (c : Client) (msgType : MessageType) (taskID : String) : Bool :=
  c.subscribedTypes.isEmpty || c.subscribedTasks.isEmpty ||
    c.subscribedTypes.contains msgType ||
    (decide (taskID ≠ "") && c.subscribedTasks.contains taskID)

/-- C3. The claim as stated is false: for a client subscribed only to the
`log` type, the task-id subscription set is empty, so the claim requires
`ShouldReceive` to be true for every message; the code returns false for a
`task-update`, because the default-on branch fires only when BOTH sets are
empty. The test file of the hub package asserts exactly this behaviour. -/
theorem C3_counterexample :
    (Client.mk true [.log] [] [] 256).subscribedTasks = [] ∧
    claimShouldReceive (Client.mk true [.log] [] [] 256) .taskUpdate "task1" = true ∧
    ShouldReceiveMessage (Client.mk true [.log] [] [] 256) .taskUpdate "task1" = false := by
  decide

/-- C3 (amended): `ShouldReceive` returns true if and only if BOTH
subscription sets are empty, or the type is subscribed, or the task id is
non-empty and subscribed; otherwise false. -/
theorem C3_shouldReceive_iff :
    ∀ (c : Client) (msgType : MessageType) (taskID : String),
      ShouldReceiveMessage c msgType taskID = true ↔
        ((c.subscribedTypes = [] ∧ c.subscribedTasks = []) ∨
          msgType ∈ c.subscribedTypes ∨
          (taskID ≠ "" ∧ taskID ∈ c.subscribedTasks)) := by
  intro c msgType taskID
  unfold ShouldReceiveMessage
  split_ifs with h1 h2 h3
  · simp only [List.length_eq_zero] at h1
    simp [h1]
  · simp only [List.contains, List.elem_iff] at h2
    simp [h2]
  · simp only [List.contains, List.elem_iff] at h3
    simp [h3]
  · simp only [List.length_eq_zero, not_and_or] at h1
    simp only [List.contains, List.elem_iff] at h2 h3
    simp only [Bool.false_eq_true, false_iff]
    rintro (⟨ha, hb⟩ | hm | hid)
    · rcases h1 with h | h
      · exact h ha
      · exact h hb
    · exact h2 hm
    · exact h3 hid

/-- The broadcast case of `Hub.Run` (`internal/hub/hub.go` lines 94 to 107),
per client: a connected client gets the serialized message enqueued on its
`send` buffer by a non-blocking send (which succeeds exactly when the buffer
has room); on a full buffer the buffer is closed and the client is evicted
(`none`); a client not marked connected is left untouched. Subscriptions are
not consulted on this path. -/
def broadcastToClient (message : String) (c : Client) : Option Client :=
  if c.connected then
    if c.send.length < c.sendCap then some { c with send := c.send ++ [message] }
    else none
  else some c

/-- The whole broadcast case of `Hub.Run`: every client in the set is
processed once by `broadcastToClient`; evicted clients are removed. -/
def hubBroadcast (message : String) (clients : List Client) : List Client :=
  clients.filterMap (broadcastToClient message)

/-- C4. The claim as stated is false: the hub enqueues a broadcast on every
connected client with buffer room, without consulting
`ShouldReceiveMessage`. Concretely, a client subscribed only to the `log`
type (for which `ShouldReceive` of a task-update is false) still has the
task-update message enqueued. -/
theorem C4_counterexample :
    ShouldReceiveMessage (Client.mk true [.log] [] [] 256) .taskUpdate "task1" = false ∧
    hubBroadcast "task-update-payload" [Client.mk true [.log] [] [] 256] =
      [Client.mk true [.log] [] ["task-update-payload"] 256] := by
  constructor
  · decide
  · rfl

/-- C4 (amended): when the hub processes a broadcast, every connected client
whose buffer has room gets the message enqueued exactly once, regardless of
its subscriptions; a connected client with a full buffer is evicted; a
disconnected client is untouched. The subscription sets play no role: the
resulting buffer is the same whatever they are. -/
theorem C4_broadcast_ignores_subscriptions :
    ∀ (message : String) (c : Client),
      (c.connected = true → c.send.length < c.sendCap →
        broadcastToClient message c = some { c with send := c.send ++ [message] }) ∧
      (c.connected = true → ¬ c.send.length < c.sendCap →
        broadcastToClient message c = none) ∧
      (c.connected = false → broadcastToClient message c = some c) ∧
      ((broadcastToClient message c).map Client.send =
        (broadcastToClient message
          { c with subscribedTypes := [], subscribedTasks := [] }).map Client.send) := by
  intro message c
  refine ⟨?_, ?_, ?_, ?_⟩
  · intro hc hroom
    simp [broadcastToClient, hc, hroom]
  · intro hc hroom
    simp [broadcastToClient, hc, hroom]
  · intro hc
    simp [broadcastToClient, hc]
  · by_cases hc : c.connected <;> by_cases hroom : c.send.length < c.sendCap <;>
      simp [broadcastToClient, hc, hroom]

/-- C4 witness: the amended theorem at a concrete connected client with
room, showing the single enqueue. -/
theorem C4_broadcast_witness :
    broadcastToClient "m" (Client.mk true [.log] [] [] 256) =
      some (Client.mk true [.log] [] ["m"] 256) :=
  (C4_broadcast_ignores_subscriptions "m" (Client.mk true [.log] [] [] 256)).1
    (by rfl) (by decide)

/-- The white-space predicate of Go `strings.TrimSpace` restricted to the
ASCII range (`unicode.IsSpace` on Latin-1: space, tab, newline, vertical
tab, form feed, carriage return). -/
def goIsSpace (c : Char) : Bool :=
  c = ' ' ∨ c = '\t' ∨ c = '\n' ∨ c = '\x0b' ∨ c = '\x0c' ∨ c = '\r'

/-- Trimming on character lists: drop white space from the front, then from
the back. -/
def trimL (l : List Char) : List Char :=
  (l.dropWhile goIsSpace).rdropWhile goIsSpace

/-- Go `strings.TrimSpace`, modelled on the character-list data of the
string. -/
def TrimSpace (s : String) : String :=
  String.mk (trimL s.data)

theorem trimL_idem (l : List Char) : trimL (trimL l) = trimL l := by
  unfold trimL
  have hA : (l.dropWhile goIsSpace).dropWhile goIsSpace = l.dropWhile goIsSpace :=
    List.dropWhile_idempotent _ _
  set A := l.dropWhile goIsSpace with hAdef
  have h1 : (A.rdropWhile goIsSpace).dropWhile goIsSpace = A.rdropWhile goIsSpace := by
    cases hrd : A.rdropWhile goIsSpace with
    | nil => simp
    | cons x xs =>
      obtain ⟨t, ht⟩ := List.rdropWhile_prefix goIsSpace (l := A)
      rw [hrd, List.cons_append] at ht
      have hx : goIsSpace x = false := by
        by_contra hx
        rw [Bool.not_eq_false] at hx
        have := hA
        rw [← ht, List.dropWhile_cons, if_pos (by simp [hx])] at this
        have hlen := congrArg List.length this
        have hle := (List.dropWhile_sublist (l := xs ++ t) goIsSpace).length_le
        simp only [List.length_cons] at hlen
        omega
      simp [List.dropWhile_cons, hx]
  rw [h1, List.rdropWhile_idempotent]

theorem trimL_eq_nil_iff (l : List Char) :
    trimL l = [] ↔ ∀ c ∈ l, goIsSpace c = true := by
  unfold trimL
  rw [List.rdropWhile_eq_nil_iff]
  constructor
  · intro h c hc
    have := List.takeWhile_append_dropWhile (p := goIsSpace) (l := l)
    rw [← this] at hc
    rcases List.mem_append.mp hc with hc | hc
    · exact List.mem_takeWhile_imp hc
    · exact h c hc
  · intro h c hc
    exact h c ((List.dropWhile_sublist _).mem hc)

theorem TrimSpace_idem (s : String) : TrimSpace (TrimSpace s) = TrimSpace s :=
  congrArg String.mk (trimL_idem s.data)

theorem TrimSpace_ne_empty_of_mem {s : String} {c : Char}
    (hc : c ∈ s.data) (hns : goIsSpace c = false) : TrimSpace s ≠ "" := by
  intro h
  have hdata : trimL s.data = [] := congrArg String.data h
  rw [trimL_eq_nil_iff] at hdata
  rw [hdata c hc] at hns
  exact Bool.noConfusion hns

/-- A JSON value sitting in a tool-use `input` map, as the parser consumes
it: the code only ever asks whether a key holds a string
(`content.Input["path"].(string)`), so strings are kept and every other
shape is collapsed. From `internal/worker/amp_parser.go` (`Content.Input`,
`map[string]interface{}`). -/
inductive GoVal where
  | str (s : String)
  | other
deriving DecidableEq, Repr

/-- Keyed lookup of a string in a tool-use input map (the Go type assertion
`input[key].(string)`); Go map keys are unique, so the first match is the
match. -/
def inputString (input : List (String × GoVal)) (key : String) : Option String :=
  match input.find? (fun kv => kv.1 == key) with
  | some (_, .str s) => some s
  | _ => none

/-- One content item of an amp message (`Content` in
`internal/worker/amp_parser.go`): a `type` tag plus the fields the parser
reads. -/
structure AmpContent where
  type : String
  text : String
  thinking : String
  id : String
  name : String
  input : List (String × GoVal)
deriving DecidableEq, Repr

/-- One message of an amp thread snapshot (`Message`), with the `meta.sentAt`
milliseconds when present. -/
structure AmpMessage where
  role : String
  content : List AmpContent
  sentAt : Option Int
deriving DecidableEq, Repr

/-- An amp thread snapshot (`Thread`). -/
structure AmpThread where
  id : String
  title : String
  messages : List AmpMessage
deriving DecidableEq, Repr

/-- The worker-side message type (`MessageType` constants of package
`worker`: `user`, `assistant`, `system`, `tool`). -/
inductive ThreadMsgType where
  | user
  | assistant
  | system
  | tool
deriving DecidableEq, Repr

/-- The metadata maps the parser attaches to emitted messages, one
constructor per map literal in `internal/worker/amp_parser.go`. -/
inductive MsgMeta where
  | noMeta
  | thinkingMeta
  | toolUseMeta (toolName toolID : String) (input : List (String × GoVal))
  | threadMeta (threadID threadTitle : String)
deriving DecidableEq, Repr

/-- An emitted `ThreadMessage`, reduced to the fields the parser computes
deterministically; the fresh UUID and the timestamp are omitted from the
model. -/
structure ThreadMessage where
  type : ThreadMsgType
  content : String
  meta : MsgMeta
deriving DecidableEq, Repr

/-- `AmpLogParser.emitMessage`: the callback is invoked only when the
content is not blank (the callback itself is assumed installed). -/
def emitMessage (t : ThreadMsgType) (content : String) (meta : MsgMeta) : List ThreadMessage :=
  if TrimSpace content ≠ "" then [⟨t, content, meta⟩] else []

/-- `AmpLogParser.formatToolUse`: the human-readable summary of a tool-use
content item. Go byte indexing and length are modelled on characters. -/
def formatToolUse (c : AmpContent) : String :=
  if c.name = "create_file" then
    match inputString c.input "path" with
    | some path => "Creating file: " ++ path
    | none => "Creating file"
  else if c.name = "edit_file" then
    match inputString c.input "path" with
    | some path => "Editing file: " ++ path
    | none => "Editing file"
  else if c.name = "read_file" then
    match inputString c.input "path" with
    | some path => "Reading file: " ++ path
    | none => "Reading file"
  else if c.name = "Bash" then
    match inputString c.input "cmd" with
    | some cmd =>
        "Running command: " ++
          (if cmd.data.length > 100 then String.mk (cmd.data.take 97) ++ "..." else cmd)
    | none => "Running command"
  else if c.name = "Grep" then
    match inputString c.input "pattern" with
    | some pattern => "Searching for: " ++ pattern
    | none => "Searching files"
  else if c.name = "glob" then
    match inputString c.input "filePattern" with
    | some pattern => "Finding files: " ++ pattern
    | none => "Finding files"
  else
    "Using tool: " ++ c.name

/-- `AmpLogParser.processUserMessage`: each `text` content with non-blank
text becomes a `user` message with the trimmed text; `tool_result` content
is skipped. -/
def processUserMessage (m : AmpMessage) : List ThreadMessage :=
  m.content.flatMap fun c =>
    if c.type = "text" ∧ TrimSpace c.text ≠ "" then
      emitMessage .user (TrimSpace c.text) .noMeta
    else []

/-- `AmpLogParser.processAssistantMessage`: three passes over the content
items, emitting non-blank `thinking` items, then `tool_use` items carrying a
tool name, then non-blank `text` items. -/
def processAssistantMessage (m : AmpMessage) : List ThreadMessage :=
  (m.content.flatMap fun c =>
    if c.type = "thinking" ∧ TrimSpace c.thinking ≠ "" then
      emitMessage .assistant (TrimSpace c.thinking) .thinkingMeta
    else []) ++
  (m.content.flatMap fun c =>
    if c.type = "tool_use" ∧ c.name ≠ "" then
      emitMessage .tool (formatToolUse c) (.toolUseMeta c.name c.id c.input)
    else []) ++
  (m.content.flatMap fun c =>
    if c.type = "text" ∧ TrimSpace c.text ≠ "" then
      emitMessage .assistant (TrimSpace c.text) .noMeta
    else [])

/-- `AmpLogParser.processMessage`: dispatch on the role; other roles emit
nothing. -/
def processMessage (m : AmpMessage) : List ThreadMessage :=
  if m.role = "user" then processUserMessage m
  else if m.role = "assistant" then processAssistantMessage m
  else []

/-- The parser state (`AmpLogParser`): the latest thread snapshot and the
processed flag; the worker id, callback and last-update time are carried by
the surrounding manager and are omitted. -/
structure AmpLogParser where
  latestThread : Option AmpThread
  conversationProcessed : Bool
deriving DecidableEq, Repr

/-- `AmpLogParser.updateThreadState`: a parsed thread-state line stores the
snapshot and clears the processed flag. -/
def updateThreadState (_p : AmpLogParser) (th : AmpThread) : AmpLogParser :=
  { latestThread := some th, conversationProcessed := false }

/-- `AmpLogParser.ProcessFinalConversation`: emits nothing when no snapshot
was seen or the snapshot was already processed; otherwise emits the optional
title header followed by every message of the final snapshot, and sets the
processed flag. Returns the emitted messages and the new parser state. -/
def ProcessFinalConversation (p : AmpLogParser) : List ThreadMessage × AmpLogParser :=
  match p.latestThread with
  | none => ([], p)
  | some th =>
    if p.conversationProcessed then ([], p)
    else
      ((if th.title ≠ "" then
          emitMessage .system ("Thread: " ++ th.title) (.threadMeta th.id th.title)
        else []) ++ th.messages.flatMap processMessage,
       { p with conversationProcessed := true })

theorem flatMap_eq_filter_map {α β : Type} (g : α → List β) (p : α → Bool) (f : α → β)
    (h1 : ∀ c, p c = true → g c = [f c]) (h2 : ∀ c, p c = false → g c = [])
    (L : List α) : L.flatMap g = (L.filter p).map f := by
  induction L with
  | nil => rfl
  | cons a t ih =>
    rw [List.flatMap_cons, List.filter_cons]
    cases hp : p a with
    | false => simp [h2 a hp, ih]
    | true => simp [h1 a hp, ih]

theorem TrimSpace_formatToolUse_ne (c : AmpContent) : TrimSpace (formatToolUse c) ≠ "" := by
  unfold formatToolUse
  split_ifs with h1 h2 h3 h4 h5 h6
  · cases hin : inputString c.input "path" with
    | some path =>
        exact TrimSpace_ne_empty_of_mem (c := 'C')
          (by rw [String.data_append]; exact List.mem_append_left _ (by decide)) (by decide)
    | none => exact TrimSpace_ne_empty_of_mem (c := 'C') (by decide) (by decide)
  · cases hin : inputString c.input "path" with
    | some path =>
        exact TrimSpace_ne_empty_of_mem (c := 'E')
          (by rw [String.data_append]; exact List.mem_append_left _ (by decide)) (by decide)
    | none => exact TrimSpace_ne_empty_of_mem (c := 'E') (by decide) (by decide)
  · cases hin : inputString c.input "path" with
    | some path =>
        exact TrimSpace_ne_empty_of_mem (c := 'R')
          (by rw [String.data_append]; exact List.mem_append_left _ (by decide)) (by decide)
    | none => exact TrimSpace_ne_empty_of_mem (c := 'R') (by decide) (by decide)
  · cases hin : inputString c.input "cmd" with
    | some cmd =>
        exact TrimSpace_ne_empty_of_mem (c := 'R')
          (by rw [String.data_append]; exact List.mem_append_left _ (by decide)) (by decide)
    | none => exact TrimSpace_ne_empty_of_mem (c := 'R') (by decide) (by decide)
  · cases hin : inputString c.input "pattern" with
    | some pattern =>
        exact TrimSpace_ne_empty_of_mem (c := 'S')
          (by rw [String.data_append]; exact List.mem_append_left _ (by decide)) (by decide)
    | none => exact TrimSpace_ne_empty_of_mem (c := 'S') (by decide) (by decide)
  · cases hin : inputString c.input "filePattern" with
    | some pattern =>
        exact TrimSpace_ne_empty_of_mem (c := 'F')
          (by rw [String.data_append]; exact List.mem_append_left _ (by decide)) (by decide)
    | none => exact TrimSpace_ne_empty_of_mem (c := 'F') (by decide) (by decide)
  · exact TrimSpace_ne_empty_of_mem (c := 'U')
      (by rw [String.data_append]; exact List.mem_append_left _ (by decide)) (by decide)

/-- C6. `ProcessFinalConversation` is idempotent: after one call, a second
call on the resulting state (no intervening thread-state line) emits zero
messages; and a parser that never observed a snapshot emits zero messages. -/
theorem C6_processFinal_idempotent :
    ∀ p : AmpLogParser,
      (ProcessFinalConversation (ProcessFinalConversation p).2).1 = [] ∧
      (p.latestThread = none → (ProcessFinalConversation p).1 = []) := by
  intro p
  obtain ⟨lt, cp⟩ := p
  cases lt with
  | none => simp [ProcessFinalConversation]
  | some th => cases cp <;> simp [ProcessFinalConversation]

/-- C6 witness: the theorem at the fresh parser state, which has no
snapshot, discharging the hypothesis of its second part. -/
theorem C6_processFinal_witness :
    (ProcessFinalConversation (AmpLogParser.mk none false)).1 = [] :=
  (C6_processFinal_idempotent (AmpLogParser.mk none false)).2 rfl

/-- C7. The claim as stated is false: a `tool_use` content item whose tool
name is empty is skipped entirely (the code requires `content.Name != ""`),
so not every `tool_use` content is emitted as a tool message. At the
concrete assistant message holding exactly one nameless `tool_use` item the
parser emits nothing. -/
theorem C7_counterexample :
    processAssistantMessage
      (AmpMessage.mk "assistant" [AmpContent.mk "tool_use" "" "" "tool-1" "" []] none) = [] ∧
    ((AmpMessage.mk "assistant" [AmpContent.mk "tool_use" "" "" "tool-1" "" []] none).content.filter
      (fun c => c.type == "tool_use")).length = 1 := by
  constructor
  · rfl
  · rfl

/-- C7 (amended): for every assistant-role message, the emitted messages
are, in order: each non-blank `thinking` content as an assistant message
with thinking metadata; then each `tool_use` content WITH A NON-EMPTY TOOL
NAME as a tool message whose content is the `formatToolUse` summary and
whose metadata carries the tool name, id and input; then each non-blank
`text` content as an assistant message. Blank content is never emitted. -/
theorem C7_assistant_three_passes :
    ∀ m : AmpMessage,
      processAssistantMessage m =
        ((m.content.filter fun c => c.type == "thinking" && TrimSpace c.thinking != "").map
          fun c => ⟨.assistant, TrimSpace c.thinking, .thinkingMeta⟩) ++
        ((m.content.filter fun c => c.type == "tool_use" && c.name != "").map
          fun c => ⟨.tool, formatToolUse c, .toolUseMeta c.name c.id c.input⟩) ++
        ((m.content.filter fun c => c.type == "text" && TrimSpace c.text != "").map
          fun c => ⟨.assistant, TrimSpace c.text, .noMeta⟩) := by
  intro m
  unfold processAssistantMessage
  have hlink1 : ∀ c : AmpContent,
      (c.type == "thinking" && TrimSpace c.thinking != "") = true ↔
        (c.type = "thinking" ∧ TrimSpace c.thinking ≠ "") := by
    intro c
    simp [Bool.and_eq_true, beq_iff_eq, bne_iff_ne]
  have hlink2 : ∀ c : AmpContent,
      (c.type == "tool_use" && c.name != "") = true ↔
        (c.type = "tool_use" ∧ c.name ≠ "") := by
    intro c
    simp [Bool.and_eq_true, beq_iff_eq, bne_iff_ne]
  have hlink3 : ∀ c : AmpContent,
      (c.type == "text" && TrimSpace c.text != "") = true ↔
        (c.type = "text" ∧ TrimSpace c.text ≠ "") := by
    intro c
    simp [Bool.and_eq_true, beq_iff_eq, bne_iff_ne]
  have hneg : ∀ {A : Prop} [inst : Decidable A] {b : Bool}, (b = true ↔ A) → b = false →
      ∀ (x y : List ThreadMessage), (if A then x else y) = y := by
    intro A inst b hb h x y
    rw [if_neg]
    intro ha
    rw [hb.mpr ha] at h
    exact Bool.noConfusion h
  have hthink := flatMap_eq_filter_map
    (fun c => if c.type = "thinking" ∧ TrimSpace c.thinking ≠ "" then
        emitMessage .assistant (TrimSpace c.thinking) .thinkingMeta else [])
    (fun c => c.type == "thinking" && TrimSpace c.thinking != "")
    (fun c => ⟨.assistant, TrimSpace c.thinking, .thinkingMeta⟩)
    (by
      intro c hc
      dsimp only
      rw [if_pos ((hlink1 c).mp hc)]
      unfold emitMessage
      rw [if_pos (by rw [TrimSpace_idem]; exact ((hlink1 c).mp hc).2)])
    (by
      intro c hc
      exact hneg (hlink1 c) hc _ _)
    m.content
  have htool := flatMap_eq_filter_map
    (fun c => if c.type = "tool_use" ∧ c.name ≠ "" then
        emitMessage .tool (formatToolUse c) (.toolUseMeta c.name c.id c.input) else [])
    (fun c => c.type == "tool_use" && c.name != "")
    (fun c => ⟨.tool, formatToolUse c, .toolUseMeta c.name c.id c.input⟩)
    (by
      intro c hc
      dsimp only
      rw [if_pos ((hlink2 c).mp hc)]
      unfold emitMessage
      rw [if_pos (TrimSpace_formatToolUse_ne c)])
    (by
      intro c hc
      exact hneg (hlink2 c) hc _ _)
    m.content
  have htext := flatMap_eq_filter_map
    (fun c => if c.type = "text" ∧ TrimSpace c.text ≠ "" then
        emitMessage .assistant (TrimSpace c.text) .noMeta else [])
    (fun c => c.type == "text" && TrimSpace c.text != "")
    (fun c => ⟨.assistant, TrimSpace c.text, .noMeta⟩)
    (by
      intro c hc
      dsimp only
      rw [if_pos ((hlink3 c).mp hc)]
      unfold emitMessage
      rw [if_pos (by rw [TrimSpace_idem]; exact ((hlink3 c).mp hc).2)])
    (by
      intro c hc
      exact hneg (hlink3 c) hc _ _)
    m.content
  rw [hthink, htool, htext]

/-- The persisted worker record (`Worker` in `internal/worker/types.go`),
with the creation instant modelled as an integer timestamp. -/
structure Worker where
  id : String
  threadID : String
  pid : Int
  logFile : String
  ampLogFile : String
  started : Int
  status : WorkerStatus
  title : String
  description : String
  tags : List String
  priority : String
deriving DecidableEq, Repr

/-- `Manager.UpdateWorkerMetadata` (worker manager file, lines 550 to 579),
restricted to the targeted worker record: each patch field that is present
(`≠ nil` in Go: a non-null pointer for title, description, priority; a
non-nil slice for tags, where the empty slice is present) overwrites the
corresponding field; absent fields are untouched. -/
def UpdateWorkerMetadata (w : Worker) (title description priority : Option String)
    (tags : Option (List String)) : Worker :=
  let w := match title with
    | some t => { w with title := t }
    | none => w
  let w := match description with
    | some d => { w with description := d }
    | none => w
  let w := match priority with
    | some p => { w with priority := p }
    | none => w
  match tags with
  | some ts => { w with tags := ts }
  | none => w

/-- C9. The metadata patch overwrites exactly the present fields (including
setting tags to the empty list when the patch carries an empty list), leaves
absent fields untouched, and never changes the identity, process or
lifecycle fields of the worker. -/
theorem C9_update_metadata_frame :
    ∀ (w : Worker) (title description priority : Option String) (tags : Option (List String)),
      (UpdateWorkerMetadata w title description priority tags).id = w.id ∧
      (UpdateWorkerMetadata w title description priority tags).threadID = w.threadID ∧
      (UpdateWorkerMetadata w title description priority tags).pid = w.pid ∧
      (UpdateWorkerMetadata w title description priority tags).logFile = w.logFile ∧
      (UpdateWorkerMetadata w title description priority tags).ampLogFile = w.ampLogFile ∧
      (UpdateWorkerMetadata w title description priority tags).started = w.started ∧
      (UpdateWorkerMetadata w title description priority tags).status = w.status ∧
      (UpdateWorkerMetadata w title description priority tags).title = title.getD w.title ∧
      (UpdateWorkerMetadata w title description priority tags).description =
        description.getD w.description ∧
      (UpdateWorkerMetadata w title description priority tags).priority =
        priority.getD w.priority ∧
      (UpdateWorkerMetadata w title description priority tags).tags = tags.getD w.tags := by
  intro w title description priority tags
  cases title <;> cases description <;> cases priority <;> cases tags <;>
    simp [UpdateWorkerMetadata]

/-- A line of a thread journal file as the storage reads it: either a
well-formed `ThreadMessage` or a malformed line that `json.Unmarshal`
rejects. -/
def JournalLine : Type := Option ThreadMessage

/-- The scan loop of `ThreadStorage.ReadMessages`: skip `offset` lines,
stop once `limit` messages are collected (when `limit > 0`), skip malformed
lines, accumulate the rest. -/
def readMessagesLoop : List JournalLine → Int → Int → Int → List ThreadMessage →
    List ThreadMessage
  | [], _, _, _, acc => acc
  | line :: rest, limit, offset, lineNum, acc =>
    if offset > 0 ∧ lineNum < offset then
      readMessagesLoop rest limit offset (lineNum + 1) acc
    else if limit > 0 ∧ (acc.length : Int) ≥ limit then acc
    else match line with
      | none => readMessagesLoop rest limit offset lineNum acc
      | some msg => readMessagesLoop rest limit offset (lineNum + 1) (acc ++ [msg])

/-- `ThreadStorage.ReadMessages` (thread storage file, lines 75 to 117): a
missing journal file (`os.IsNotExist`) yields an empty list and no error;
otherwise the scan loop runs over the lines of the file. -/
def ReadMessages (file : Option (List JournalLine)) (limit offset : Int) :
    Except String (List ThreadMessage) :=
  match file with
  | none => .ok []
  | some lines => .ok (readMessagesLoop lines limit offset 0 [])

/-- `ThreadStorage.CountMessages` (thread storage file, lines 119 to 143): a
missing journal file yields zero and no error; otherwise every line is
counted, malformed ones included. -/
def CountMessages (file : Option (List JournalLine)) : Except String Int :=
  match file with
  | none => .ok 0
  | some lines => .ok (lines.length : Int)

/-- C10. For a task whose thread journal file does not exist, `ReadMessages`
returns an empty message list with no error, for every limit and offset, and
`CountMessages` returns zero with no error. -/
theorem C10_missing_journal_empty :
    ∀ (limit offset : Int),
      ReadMessages none limit offset = .ok [] ∧
      CountMessages none = .ok 0 := by
  intro limit offset
  exact ⟨rfl, rfl⟩

/-- The decimal digit characters produced by Go integer formatting. -/
def digitChar : Nat → Char
  | 0 => '0'
  | 1 => '1'
  | 2 => '2'
  | 3 => '3'
  | 4 => '4'
  | 5 => '5'
  | 6 => '6'
  | 7 => '7'
  | 8 => '8'
  | 9 => '9'
  | _ => '*'

/-- Decimal rendering of a natural number, most significant digit first, as
`fmt.Sprintf` with verb `d` produces it. -/
def natToChars (n : Nat) : List Char :=
  if _h : n < 10 then [digitChar n]
  else natToChars (n / 10) ++ [digitChar (n % 10)]
termination_by n
decreasing_by
  exact Nat.div_lt_self (by omega) (by omega)

/-- Decimal rendering of an `int64`, as `fmt.Sprintf` with verb `d`. -/
def intToChars (i : Int) : List Char :=
  if i < 0 then '-' :: natToChars (-i).toNat else natToChars i.toNat

/-- The decimal digit test of `strconv`. -/
def isDigit (c : Char) : Bool :=
  '0' ≤ c ∧ c ≤ '9'

/-- The value of a digit string read left to right. -/
def charsToNat (l : List Char) : Nat :=
  l.foldl (fun a c => a * 10 + (c.toNat - 48)) 0

/-- Go `strconv.ParseInt(s, 10, 64)`: an optional sign followed by at least
one decimal digit, rejected when the value leaves the `int64` range. -/
def parseIntChars : List Char → Option Int
  | [] => none
  | c :: rest =>
    if c = '-' then
      if rest ≠ [] ∧ rest.all isDigit then
        if (charsToNat rest : Int) ≤ 2 ^ 63 then some (-(charsToNat rest : Int)) else none
      else none
    else if c = '+' then
      if rest ≠ [] ∧ rest.all isDigit then
        if (charsToNat rest : Int) < 2 ^ 63 then some ((charsToNat rest : Int)) else none
      else none
    else
      if (c :: rest).all isDigit then
        if (charsToNat (c :: rest) : Int) < 2 ^ 63 then some ((charsToNat (c :: rest) : Int))
        else none
      else none

/-- A Go `time.Time` instant: whole seconds plus a nanosecond offset in
`[0, 1e9)`; `Unix()` returns the seconds, truncating the fraction. -/
structure GoTime where
  sec : Int
  nsec : Nat
deriving DecidableEq, Repr

/-- `time.Time.Unix`. -/
def GoTime.unix (t : GoTime) : Int := t.sec

/-- `GenerateCursor` from the query package (`pkg/query`, lines 108 to 112):
the cursor is the decimal Unix seconds, an underscore, then the id. Strings
are modelled as character lists. -/
def GenerateCursor (id : List Char) (started : GoTime) : List Char :=
  intToChars started.unix ++ '_' :: id

/-- The split of `ParseCursor`: `strings.SplitN(cursor, "_", 2)` produces
two parts exactly when an underscore occurs; the second part keeps any
later underscores. -/
def splitFirstUnderscore : List Char → Option (List Char × List Char)
  | [] => none
  | c :: rest =>
    if c = '_' then some ([], rest)
    else match splitFirstUnderscore rest with
      | some p => some (c :: p.1, p.2)
      | none => none

/-- `ParseCursor` from the query package (lines 115 to 127): split at the
first underscore (two parts required), parse the first part as a 64-bit
decimal integer, and return `time.Unix(ts, 0)` — modelled by the seconds —
with the id. -/
def ParseCursor (cursor : List Char) : Option (Int × List Char) :=
  match splitFirstUnderscore cursor with
  | none => none
  | some parts =>
    match parseIntChars parts.1 with
    | none => none
    | some ts => some (ts, parts.2)

theorem isDigit_digitChar {d : Nat} (h : d < 10) : isDigit (digitChar d) = true := by
  have hd : d = 0 ∨ d = 1 ∨ d = 2 ∨ d = 3 ∨ d = 4 ∨ d = 5 ∨ d = 6 ∨ d = 7 ∨ d = 8 ∨ d = 9 := by
    omega
  rcases hd with rfl | rfl | rfl | rfl | rfl | rfl | rfl | rfl | rfl | rfl <;> decide

theorem toNat_digitChar {d : Nat} (h : d < 10) : (digitChar d).toNat - 48 = d := by
  have hd : d = 0 ∨ d = 1 ∨ d = 2 ∨ d = 3 ∨ d = 4 ∨ d = 5 ∨ d = 6 ∨ d = 7 ∨ d = 8 ∨ d = 9 := by
    omega
  rcases hd with rfl | rfl | rfl | rfl | rfl | rfl | rfl | rfl | rfl | rfl <;> decide

theorem natToChars_all_digit (n : Nat) : (natToChars n).all isDigit = true := by
  induction n using Nat.strong_induction_on with
  | _ n ih =>
    rw [natToChars]
    split
    · rename_i h
      simp [isDigit_digitChar h]
    · rw [List.all_append]
      have h1 := ih (n / 10) (Nat.div_lt_self (by omega) (by omega))
      have h2 : isDigit (digitChar (n % 10)) = true :=
        isDigit_digitChar (Nat.mod_lt _ (by omega))
      simp [h1, h2]

theorem natToChars_ne_nil (n : Nat) : natToChars n ≠ [] := by
  rw [natToChars]
  split
  · simp
  · simp

theorem charsToNat_append_digit (l : List Char) (c : Char) :
    charsToNat (l ++ [c]) = charsToNat l * 10 + (c.toNat - 48) := by
  simp [charsToNat, List.foldl_append]

theorem charsToNat_natToChars (n : Nat) : charsToNat (natToChars n) = n := by
  induction n using Nat.strong_induction_on with
  | _ n ih =>
    rw [natToChars]
    split
    · rename_i h
      show 0 * 10 + ((digitChar n).toNat - 48) = n
      rw [toNat_digitChar h]
      omega
    · rename_i h
      rw [charsToNat_append_digit, ih (n / 10) (Nat.div_lt_self (by omega) (by omega)),
        toNat_digitChar (Nat.mod_lt _ (by omega))]
      omega

theorem splitFirstUnderscore_append (l r : List Char) (h : ∀ c ∈ l, c ≠ '_') :
    splitFirstUnderscore (l ++ '_' :: r) = some (l, r) := by
  induction l with
  | nil => simp [splitFirstUnderscore]
  | cons a t ih =>
    have ha : ¬ a = '_' := h a (List.mem_cons_self a t)
    rw [List.cons_append]
    rw [splitFirstUnderscore]
    rw [if_neg ha, ih (fun c hc => h c (List.mem_cons_of_mem a hc))]

theorem isDigit_ne_special {c : Char} (h : isDigit c = true) :
    c ≠ '-' ∧ c ≠ '+' ∧ c ≠ '_' := by
  refine ⟨?_, ?_, ?_⟩ <;> rintro rfl <;> exact absurd h (by decide)

theorem mem_natToChars_digit {n : Nat} {c : Char} (h : c ∈ natToChars n) :
    isDigit c = true := by
  have hall := natToChars_all_digit n
  rw [List.all_eq_true] at hall
  exact hall c h

theorem parseIntChars_natToChars (n : Nat) (hn : (n : Int) < 2 ^ 63) :
    parseIntChars (natToChars n) = some (n : Int) := by
  obtain ⟨c, t, hct⟩ : ∃ c t, natToChars n = c :: t := by
    cases hx : natToChars n with
    | nil => exact absurd hx (natToChars_ne_nil n)
    | cons c t => exact ⟨c, t, rfl⟩
  have hall := natToChars_all_digit n
  rw [hct] at hall
  have hc : isDigit c = true := by
    rw [List.all_cons, Bool.and_eq_true] at hall
    exact hall.1
  obtain ⟨hc1, hc2, _⟩ := isDigit_ne_special hc
  have hval : charsToNat (c :: t) = n := by
    rw [← hct, charsToNat_natToChars]
  rw [hct, parseIntChars, if_neg hc1, if_neg hc2, if_pos hall, hval, if_pos hn]

theorem parseIntChars_negChars (m : Nat) (hm : (m : Int) ≤ 2 ^ 63) :
    parseIntChars ('-' :: natToChars m) = some (-(m : Int)) := by
  rw [parseIntChars, if_pos rfl,
    if_pos ⟨natToChars_ne_nil m, natToChars_all_digit m⟩,
    charsToNat_natToChars, if_pos hm]

theorem intToChars_no_underscore (i : Int) : ∀ c ∈ intToChars i, c ≠ '_' := by
  intro c hc
  unfold intToChars at hc
  split at hc
  · rcases List.mem_cons.mp hc with rfl | hmem
    · decide
    · exact (isDigit_ne_special (mem_natToChars_digit hmem)).2.2
  · exact (isDigit_ne_special (mem_natToChars_digit hc)).2.2

/-- C8. Generating a cursor from a worker id and a timestamp within the
`int64` range and parsing it back yields exactly the timestamp truncated to
whole seconds together with the id: the cursor is the string
`<unix_seconds>_<id>`, the split takes the first underscore (the decimal
seconds never contain one), and the seconds parse back to the same value. -/
theorem C8_cursor_roundtrip :
    ∀ (id : List Char) (t : GoTime),
      -(2 ^ 63) ≤ t.unix → t.unix < 2 ^ 63 →
      ParseCursor (GenerateCursor id t) = some (t.unix, id) := by
  intro id t h1 h2
  unfold GenerateCursor ParseCursor
  rw [splitFirstUnderscore_append _ _ (intToChars_no_underscore t.unix)]
  have hp : parseIntChars (intToChars t.unix) = some t.unix := by
    unfold intToChars
    split
    · rename_i hneg
      have hm : (((-t.unix).toNat : Nat) : Int) = -t.unix := Int.toNat_of_nonneg (by omega)
      rw [parseIntChars_negChars _ (by rw [hm]; omega), hm, neg_neg]
    · rename_i hpos
      have hm : (((t.unix).toNat : Nat) : Int) = t.unix := Int.toNat_of_nonneg (by omega)
      rw [parseIntChars_natToChars _ (by rw [hm]; exact h2), hm]
  simp only []
  rw [hp]

/-- C8 witness: the round trip at a concrete id and a concrete instant with
a non-zero fractional second, which the cursor truncates away. -/
theorem C8_cursor_witness :
    ParseCursor (GenerateCursor ['w', '1'] (GoTime.mk 1700000000 500000000)) =
      some (1700000000, ['w', '1']) :=
  C8_cursor_roundtrip ['w', '1'] (GoTime.mk 1700000000 500000000)
    (by decide) (by decide)

/-- `dropCR` of `bufio.ScanLines`: strip one trailing carriage return from a
token. -/
def dropCR (l : List Char) : List Char :=
  if l.getLast? = some '\r' then l.dropLast else l

/-- The token stream `bufio.ScanLines` produces when a reader is consumed to
end of file: tokens are the runs between newlines, each with a trailing
carriage return stripped, and — crucially — a non-empty leftover AFTER the
last newline is returned as a final token even though no newline terminates
it. The accumulator carries the characters of the token being scanned, in
reverse. -/
def scanLinesAux : List Char → List Char → List (List Char)
  | [], acc => if acc = [] then [] else [dropCR acc.reverse]
  | '\n' :: rest, acc => dropCR acc.reverse :: scanLinesAux rest []
  | c :: rest, acc => scanLinesAux rest (c :: acc)

/-- All tokens `bufio.ScanLines` yields for a byte sequence read to end of
file. -/
def scanLines (l : List Char) : List (List Char) :=
  scanLinesAux l []

/-- One tick of `LogTailer.tailFile` (`internal/worker/tailer.go` lines 66
to 136) on an existing file: if the file shrank below the stored offset the
tailer reopens at offset zero; it then reads every token the scanner yields
from the stored offset to end of file, emits each non-empty one through the
callback, and stores the end-of-file position as the new offset. Returns
the emitted lines and the new offset. -/
def tailTick (content : List Char) (lastSize : Nat) : List (List Char) × Nat :=
  let lastSize := if content.length < lastSize then 0 else lastSize
  ((scanLines (content.drop lastSize)).filter (fun t => t ≠ []), content.length)

/-- A run of the tailer: fold `tailTick` over the file contents observed at
successive polls, starting at offset zero, concatenating the emitted
lines. -/
def tailerRun (observations : List (List Char)) : List (List Char) :=
  (observations.foldl
    (fun (st : List (List Char) × Nat) content =>
      let r := tailTick content st.2
      (st.1 ++ r.1, r.2))
    ([], 0)).1

/-- The non-empty COMPLETE lines of a file, i.e. the tokens terminated by a
newline; a trailing unterminated run is not a line. Written from the words
of the claim, for comparison with what the tailer emits. -/
def completeLinesAux : List Char → List Char → List (List Char)
  | [], _acc => []
  | '\n' :: rest, acc => dropCR acc.reverse :: completeLinesAux rest []
  | c :: rest, acc => completeLinesAux rest (c :: acc)

/-- The non-empty complete lines of a file content. -/
def completeLines (l : List Char) : List (List Char) :=
  (completeLinesAux l []).filter (fun t => t ≠ [])

/-- C2. The code diverges from the claim: when a poll observes the file
while a line is still unterminated, `bufio.Scanner` returns the leftover
bytes at end of file as a token, so the tailer emits the partial line
early, and the continuation is emitted as a separate line after the newline
arrives. Concretely, polls observing `ab` then `abc\n` emit `ab` and `c`,
while the claim requires exactly the single complete line `abc` emitted
only after its newline. -/
theorem C2_partial_line_emitted_early :
    tailerRun [['a', 'b'], ['a', 'b', 'c', '\n']] = [['a', 'b'], ['c']] ∧
    completeLines ['a', 'b', 'c', '\n'] = [['a', 'b', 'c']] ∧
    tailerRun [['a', 'b'], ['a', 'b', 'c', '\n']] ≠
      completeLines ['a', 'b', 'c', '\n'] := by
  refine ⟨rfl, rfl, ?_⟩
  decide
